import Mathlib

/-!
Verification development for the agent loop of the dexter repository.

The agent loop (Agent.run), the proactive context-threshold check
(Agent.manageContextThreshold) and the financial_search combination logic
(createFinancialSearch) are embedded from the source.  The Scratchpad, the
ToolExecutor event stream and the TokenCounter are imported collaborators of
the loop whose implementations are not part of the sources at hand; they are
modelled from the specification where noted.  External helpers
(isContextOverflowError, estimateTokens, CONTEXT_THRESHOLD, KEEP_TOOL_USES,
formatUserFacingError, buildIterationPrompt) are parameters of the embedding,
collected in the Env structure.
-/

/-- TokenUsage record: promptTokens, completionTokens, totalTokens. -/
structure TokenUsage where
  promptTokens : Nat
  completionTokens : Nat
  totalTokens : Nat
deriving DecidableEq, Repr

/-- Modelled from the spec: TokenCounter.add — usage samples accumulate
additively; a missing sample (provider did not report usage) is a no-op.
The TokenCounter implementation is not among the sources. -/
def addUsage (t : TokenUsage) : Option TokenUsage → TokenUsage
  | none => t
  | some u =>
    ⟨t.promptTokens + u.promptTokens,
     t.completionTokens + u.completionTokens,
     t.totalTokens + u.totalTokens⟩

/-- A tool call requested by the model (name and serialized arguments). -/
structure ToolCallReq where
  name : String
  args : String
deriving DecidableEq, Repr

/-- A tool-call record for final reporting: tool, args, result-or-error. -/
structure ToolCallRecord where
  tool : String
  args : String
  outcome : String
deriving DecidableEq, Repr

/-- Modelled from the spec: a Scratchpad entry is either a thinking note or a
tool-use record.  A tool-use record carries the tool name, its arguments, the
outcome text, and a flag saying whether the full payload is still retained
(pruning drops the payload but keeps the record).  The Scratchpad
implementation is not among the sources. -/
inductive SEntry
  | thinking (text : String)
  | toolUse (tool : String) (args : String) (outcome : String) (hasFull : Bool)
deriving DecidableEq, Repr

/-- Modelled from the spec: the Scratchpad is the chronologically ordered
sequence of entries. -/
structure Scratchpad where
  entries : List SEntry
deriving DecidableEq, Repr

namespace Scratchpad

/-- Modelled from the spec: addThinking appends a thinking note. -/
def addThinking (sp : Scratchpad) (text : String) : Scratchpad :=
  ⟨sp.entries ++ [SEntry.thinking text]⟩

/-- Modelled from the spec: addToolResult appends a tool-use record with its
full payload retained. -/
def addToolResult (sp : Scratchpad) (tool args outcome : String) : Scratchpad :=
  ⟨sp.entries ++ [SEntry.toolUse tool args outcome true]⟩

/-- Modelled from the spec: getToolResults renders the full payloads of all
currently retained tool-use records, in chronological order. -/
def getToolResults (sp : Scratchpad) : String :=
  String.intercalate "\n" (sp.entries.filterMap fun e =>
    match e with
    | SEntry.toolUse tool args outcome true =>
      some ("Tool: " ++ tool ++ "\nArgs: " ++ args ++ "\nResult: " ++ outcome)
    | _ => none)

/-- Modelled from the spec: formatToolUsageForPrompt lists every tool call
ever made (name and arguments), regardless of pruning. -/
def formatToolUsageForPrompt (sp : Scratchpad) : String :=
  String.intercalate "\n" (sp.entries.filterMap fun e =>
    match e with
    | SEntry.toolUse tool args _ _ => some (tool ++ "(" ++ args ++ ")")
    | _ => none)

/-- Modelled from the spec: getToolCallRecords returns the complete,
never-pruned list of tool/args/outcome records. -/
def getToolCallRecords (sp : Scratchpad) : List ToolCallRecord :=
  sp.entries.filterMap fun e =>
    match e with
    | SEntry.toolUse tool args outcome _ => some ⟨tool, args, outcome⟩
    | _ => none

/-- Helper for clearOldestToolResults: walks the entries most-recent-first,
keeps the payload flag of the first keep tool-use records, drops the payload
of the rest, and counts how many payloads were actually discarded. -/
def clearAux : Nat → List SEntry → List SEntry × Nat
  | _, [] => ([], 0)
  | keep, SEntry.thinking t :: rest =>
    let r := clearAux keep rest
    (SEntry.thinking t :: r.1, r.2)
  | 0, SEntry.toolUse n a o f :: rest =>
    let r := clearAux 0 rest
    (SEntry.toolUse n a o false :: r.1, if f then r.2 + 1 else r.2)
  | keep + 1, SEntry.toolUse n a o f :: rest =>
    let r := clearAux keep rest
    (SEntry.toolUse n a o f :: r.1, r.2)

/-- Modelled from the spec: clearOldestToolResults keeps the full payload of
only the most recent keepCount tool-use records; older records lose their
payload but keep their compact listing.  Returns the new scratchpad and the
number of records whose full payload was discarded. -/
def clearOldestToolResults (sp : Scratchpad) (keepCount : Nat) : Scratchpad × Nat :=
  let r := clearAux keepCount sp.entries.reverse
  (⟨r.1.reverse⟩, r.2)

end Scratchpad

/-- Whether an entry is a tool-use record still holding its full payload. -/
def SEntry.isFull : SEntry → Bool
  | SEntry.toolUse _ _ _ true => true
  | _ => false

namespace Scratchpad

/-- Number of tool-use records still holding their full payload. -/
def countFulls (sp : Scratchpad) : Nat :=
  sp.entries.countP SEntry.isFull

/-- No tool-use record in the list holds a full payload. -/
def noFulls : List SEntry → Bool
  | [] => true
  | SEntry.toolUse _ _ _ true :: _ => false
  | _ :: rest => noFulls rest

/-- In a most-recent-first listing, all payload-holding tool-use records come
before all payload-free ones. -/
def fullsFront : List SEntry → Bool
  | [] => true
  | SEntry.toolUse _ _ _ false :: rest => noFulls rest
  | _ :: rest => fullsFront rest

/-- Well-formedness invariant of reachable scratchpad states: the tool-use
records still holding full payloads form a suffix (the most recent ones) of
the chronological entry list.  Freshly created scratchpads satisfy it and
every operation preserves it. -/
def WF (sp : Scratchpad) : Prop :=
  fullsFront sp.entries.reverse = true

instance (sp : Scratchpad) : Decidable sp.WF := by
  unfold WF; infer_instance

end Scratchpad

/-- Whitespace test for jsTrim. -/
def isWS (c : Char) : Bool :=
  c = ' ' ∨ c = '\n' ∨ c = '\t' ∨ c = '\r'

/-- Model of the JavaScript String.prototype.trim: drop whitespace from both
ends of the string. -/
def jsTrim (s : String) : String :=
  ⟨((s.data.dropWhile isWS).reverse.dropWhile isWS).reverse⟩

/-- AgentEvent: the tagged event variants yielded by Agent.run.  The done
event carries the answer text, the never-pruned tool-call records, the
iteration count and the cumulative token usage (none when the source yields a
done without a tokenUsage field); wall-clock fields (totalTime,
tokensPerSecond) are not modelled. -/
inductive AgentEvent
  | thinking (message : String)
  | tool_progress (name : String) (args : String) (outcome : String)
  | tool_denied (name : String)
  | context_cleared (clearedCount : Nat) (keptCount : Nat)
  | done (answer : String) (toolCalls : List ToolCallRecord)
      (iterations : Nat) (tokenUsage : Option TokenUsage)
deriving DecidableEq, Repr

/-- A trace item is either a yielded AgentEvent or the act of invoking the
model (callModel), tagged with the iteration counter at the moment of the
call.  Model invocations are recorded so that claims about the number and
placement of model calls are observable. -/
inductive TraceItem
  | ev (e : AgentEvent)
  | modelCall (iteration : Nat)
deriving DecidableEq, Repr

/-- The events of a trace (dropping the model-call markers). -/
def events (tr : List TraceItem) : List AgentEvent :=
  tr.filterMap fun i =>
    match i with
    | TraceItem.ev e => some e
    | TraceItem.modelCall _ => none

/-- The iteration tags of the model-call markers of a trace, in order. -/
def modelCallIters (tr : List TraceItem) : List Nat :=
  tr.filterMap fun i =>
    match i with
    | TraceItem.ev _ => none
    | TraceItem.modelCall n => some n

/-- Whether an event is the terminal done event. -/
def AgentEvent.isDone : AgentEvent → Bool
  | AgentEvent.done _ _ _ _ => true
  | _ => false

/-- Whether an event is a context_cleared event. -/
def AgentEvent.isContextCleared : AgentEvent → Bool
  | AgentEvent.context_cleared _ _ => true
  | _ => false

/-- Whether an event is a tool_denied event. -/
def AgentEvent.isDenied : AgentEvent → Bool
  | AgentEvent.tool_denied _ => true
  | _ => false

/-- Outcome of one model invocation, as seen by the loop: a thrown error, a
plain string response, or an AIMessage with text content and tool calls. -/
inductive ModelOutcome
  | err (msg : String)
  | strResp (s : String) (usage : Option TokenUsage)
  | msgResp (text : String) (toolCalls : List ToolCallReq) (usage : Option TokenUsage)
deriving DecidableEq, Repr

/-- A successful model response: plain string or message with tool calls. -/
inductive ModelResp
  | text (s : String)
  | msg (text : String) (toolCalls : List ToolCallReq)
deriving DecidableEq, Repr

/-- The visible text of a response (extractTextContent, or the string
itself). -/
def ModelResp.visibleText : ModelResp → String
  | ModelResp.text s => s
  | ModelResp.msg t _ => t

/-- The tool calls of a response; a plain string carries none
(hasToolCalls is false exactly when this list is empty). -/
def ModelResp.calls : ModelResp → List ToolCallReq
  | ModelResp.text _ => []
  | ModelResp.msg _ cs => cs

/-- Modelled from the spec: one lifecycle event of the tool executor, whose
implementation is not among the sources.  The executor records each executed
outcome of each call into the scratchpad and emits a progress event, or
signals denial, which stops the batch. -/
inductive ExecEvent
  | progress (name : String) (args : String) (outcome : String)
  | denied (name : String)
deriving DecidableEq, Repr

/-- External collaborators of the loop, passed in as parameters:
isContextOverflowError, formatUserFacingError, estimateTokens,
CONTEXT_THRESHOLD and KEEP_TOOL_USES from utils, buildIterationPrompt, and
the system prompt. -/
structure Env where
  isOverflow : String → Bool
  formatError : String → String
  estimateTokens : String → Nat
  contextThreshold : Nat
  keepToolUses : Nat
  systemPrompt : String
  buildIterPrompt : String → String → String → String

/-- The nondeterminism of one run, resolved: the outcome of the n-th model
invocation given the prompt it was sent, and the executor event stream of the
n-th tool batch given the requested calls. -/
structure Oracle where
  model : Nat → String → ModelOutcome
  exec : Nat → List ToolCallReq → List ExecEvent

/-- MAX_OVERFLOW_RETRIES from the source. -/
def MAX_OVERFLOW_RETRIES : Nat := 2

/-- OVERFLOW_KEEP_TOOL_USES from the source. -/
def OVERFLOW_KEEP_TOOL_USES : Nat := 3

/-- The mutable state of one run: the RunContext fields that the claims
observe (iteration counter, scratchpad, accumulated token usage), the
overflowRetries local, the current prompt, and counters of model calls and
tool batches made so far (used to index the oracle). -/
structure LoopState where
  iteration : Nat
  overflowRetries : Nat
  modelCalls : Nat
  batches : Nat
  scratchpad : Scratchpad
  tokens : TokenUsage
  currentPrompt : String
deriving Repr

/-- The answer string of the max-iterations done event. -/
def maxIterAnswer (maxIterations : Nat) : String :=
  "Reached maximum iterations (" ++ toString maxIterations ++
    "). I was unable to complete the research in the allotted steps."

/-- The state after one overflow retry: one more model call made, the retry
counter incremented, the scratchpad pruned to OVERFLOW_KEEP_TOOL_USES, and
the prompt rebuilt from the pruned scratchpad. -/
def retryState (env : Env) (query : String) (st : LoopState) : LoopState :=
  { st with
    modelCalls := st.modelCalls + 1,
    overflowRetries := st.overflowRetries + 1,
    scratchpad := (st.scratchpad.clearOldestToolResults OVERFLOW_KEEP_TOOL_USES).1,
    currentPrompt := env.buildIterPrompt query
      (st.scratchpad.clearOldestToolResults OVERFLOW_KEEP_TOOL_USES).1.getToolResults
      (st.scratchpad.clearOldestToolResults OVERFLOW_KEEP_TOOL_USES).1.formatToolUsageForPrompt }

/-- The inner retry loop around callModel (the while-true in Agent.run):
invokes the model; on success resets overflowRetries and hands the response
back; on an error classified as context overflow with overflowRetries below
MAX_OVERFLOW_RETRIES, prunes the scratchpad to OVERFLOW_KEEP_TOOL_USES and,
if the prune discarded anything, emits context_cleared, rebuilds the prompt
from the pruned scratchpad (retryState) and retries; otherwise emits the
terminal error done.  The fuel argument bounds the retries; the loop in the
source terminates because each retry increments overflowRetries, so fuel
MAX_OVERFLOW_RETRIES + 1 always suffices (the fuel-exhausted branch repeats
the terminal error done and is unreachable from the loop entry). -/
def modelPhase (env : Env) (orc : Oracle) (query : String) :
    Nat → LoopState → List TraceItem × Option ((ModelResp × Option TokenUsage) × LoopState)
  | fuel, st =>
    match orc.model st.modelCalls st.currentPrompt with
    | ModelOutcome.err msg =>
      if env.isOverflow msg = true ∧ st.overflowRetries < MAX_OVERFLOW_RETRIES then
        if 0 < (st.scratchpad.clearOldestToolResults OVERFLOW_KEEP_TOOL_USES).2 then
          match fuel with
          | 0 =>
            ([TraceItem.modelCall st.iteration,
              TraceItem.ev (AgentEvent.done ("Error: " ++ env.formatError msg)
                st.scratchpad.getToolCallRecords st.iteration (some st.tokens))],
             none)
          | f + 1 =>
            (TraceItem.modelCall st.iteration ::
              TraceItem.ev (AgentEvent.context_cleared
                (st.scratchpad.clearOldestToolResults OVERFLOW_KEEP_TOOL_USES).2
                OVERFLOW_KEEP_TOOL_USES) ::
              (modelPhase env orc query f (retryState env query st)).1,
             (modelPhase env orc query f (retryState env query st)).2)
        else
          ([TraceItem.modelCall st.iteration,
            TraceItem.ev (AgentEvent.done ("Error: " ++ env.formatError msg)
              st.scratchpad.getToolCallRecords st.iteration (some st.tokens))],
           none)
      else
        ([TraceItem.modelCall st.iteration,
          TraceItem.ev (AgentEvent.done ("Error: " ++ env.formatError msg)
            st.scratchpad.getToolCallRecords st.iteration (some st.tokens))],
         none)
    | ModelOutcome.strResp s u =>
      ([TraceItem.modelCall st.iteration],
       some ((ModelResp.text s, u),
         { st with modelCalls := st.modelCalls + 1, overflowRetries := 0 }))
    | ModelOutcome.msgResp t cs u =>
      ([TraceItem.modelCall st.iteration],
       some ((ModelResp.msg t cs, u),
         { st with modelCalls := st.modelCalls + 1, overflowRetries := 0 }))

/-- Modelled from the spec: how the loop consumes the executor event
stream (for await over executeAll).  Progress events append their outcome to
the scratchpad and are forwarded; a denied event is forwarded and stops the
batch, reporting denial. Returns forwarded events, the scratchpad after the
recorded outcomes, and whether denial occurred. -/
def processBatch : List ExecEvent → Scratchpad → List AgentEvent × Scratchpad × Bool
  | [], sp => ([], sp, false)
  | ExecEvent.progress n a o :: rest, sp =>
    let r := processBatch rest (sp.addToolResult n a o)
    (AgentEvent.tool_progress n a o :: r.1, r.2)
  | ExecEvent.denied n :: _, sp => ([AgentEvent.tool_denied n], sp, true)

/-- Agent.manageContextThreshold: estimate the token count of systemPrompt +
query + full tool results; if it exceeds CONTEXT_THRESHOLD, clear the oldest
tool results down to KEEP_TOOL_USES, emitting context_cleared when the prune
discarded at least one record. -/
def manageContextThreshold (env : Env) (query : String) (sp : Scratchpad) :
    List AgentEvent × Scratchpad :=
  if env.estimateTokens (env.systemPrompt ++ query ++ sp.getToolResults) >
      env.contextThreshold then
    if 0 < (sp.clearOldestToolResults env.keepToolUses).2 then
      ([AgentEvent.context_cleared (sp.clearOldestToolResults env.keepToolUses).2
          env.keepToolUses],
       (sp.clearOldestToolResults env.keepToolUses).1)
    else ([], (sp.clearOldestToolResults env.keepToolUses).1)
  else ([], sp)

/-- The main agent loop (the while of Agent.run), driven by the fuel
maxIterations - iteration: when the fuel is exhausted the loop condition
iteration < maxIterations is false and the max-iterations done is emitted;
otherwise the iteration counter is incremented at the top of the pass, the
model is called (with overflow retries), thinking is emitted when tool calls
accompany non-blank text, a direct response terminates with done, a tool
batch is executed (denial terminates with an empty-answer done), the
context threshold is managed, and the prompt is rebuilt for the next pass. -/
def runLoop (env : Env) (orc : Oracle) (query : String) (maxIterations : Nat) :
    Nat → LoopState → List TraceItem
  | 0, st =>
    [TraceItem.ev (AgentEvent.done (maxIterAnswer maxIterations)
      st.scratchpad.getToolCallRecords st.iteration (some st.tokens))]
  | fuel + 1, st0 =>
    let st := { st0 with iteration := st0.iteration + 1 }
    let mp := modelPhase env orc query (MAX_OVERFLOW_RETRIES + 1) st
    match mp with
    | (tr, none) => tr
    | (tr, some ((resp, usage), st1)) =>
      let st2 := { st1 with tokens := addUsage st1.tokens usage }
      let text := resp.visibleText
      let tcs := resp.calls
      let tk : List TraceItem × Scratchpad :=
        if jsTrim text ≠ "" ∧ tcs ≠ [] then
          ([TraceItem.ev (AgentEvent.thinking (jsTrim text))],
           st2.scratchpad.addThinking (jsTrim text))
        else ([], st2.scratchpad)
      if tcs = [] then
        tr ++ tk.1 ++ [TraceItem.ev (AgentEvent.done text
          tk.2.getToolCallRecords st2.iteration (some st2.tokens))]
      else
        let pb := processBatch (orc.exec st2.batches tcs) tk.2
        if pb.2.2 then
          tr ++ tk.1 ++ pb.1.map TraceItem.ev ++
            [TraceItem.ev (AgentEvent.done "" pb.2.1.getToolCallRecords
              st2.iteration (some st2.tokens))]
        else
          let mc := manageContextThreshold env query pb.2.1
          let st3 : LoopState :=
            { st2 with
              scratchpad := mc.2,
              batches := st2.batches + 1,
              currentPrompt := env.buildIterPrompt query mc.2.getToolResults
                mc.2.formatToolUsageForPrompt }
          tr ++ tk.1 ++ pb.1.map TraceItem.ev ++ mc.1.map TraceItem.ev ++
            runLoop env orc query maxIterations fuel st3

/-- The initial LoopState of a run: iteration 0, no retries, empty
scratchpad, zero token usage, and the initial prompt. -/
def initState (initialPrompt : String) : LoopState :=
  { iteration := 0, overflowRetries := 0, modelCalls := 0, batches := 0,
    scratchpad := ⟨[]⟩, tokens := ⟨0, 0, 0⟩, currentPrompt := initialPrompt }

/-- Agent.run: with an empty tool registry, yield the no-tools done (with
empty toolCalls, iterations 0, and no tokenUsage field) and return without
calling the model; otherwise run the main loop on a fresh RunContext.  The
tools argument is the tool-name list of the registry; initialPrompt is the result
of buildInitialPrompt (an external prompt builder). -/
def agentRun (env : Env) (orc : Oracle) (tools : List String)
    (maxIterations : Nat) (query : String) (initialPrompt : String) : List TraceItem :=
  if tools.isEmpty then
    [TraceItem.ev (AgentEvent.done
      "No tools available. Please check your API key configuration." [] 0 none)]
  else
    runLoop env orc query maxIterations maxIterations (initState initialPrompt)

/-- A sub-tool call produced by the router model inside financial_search:
the tool name, its serialized arguments, and the ticker field of the
arguments when present (used for the combined-result key). -/
structure SubToolCall where
  name : String
  args : String
  ticker : Option String
deriving DecidableEq, Repr

/-- Outcome of invoking one registered finance sub-tool (including the
JSON parse of its result): a thrown error or parsed data with source urls. -/
inductive SubToolOutcome
  | throws (msg : String)
  | ok (data : String) (urls : List String)
deriving DecidableEq, Repr

/-- One entry of the results array of financial_search: tool, args, data,
sourceUrls, error (null on success). -/
structure SubResult where
  tool : String
  args : String
  ticker : Option String
  data : Option String
  sourceUrls : List String
  error : Option String
deriving DecidableEq, Repr

/-- The body of the try/catch around one sub-tool call in
createFinancialSearch: an unregistered name throws a tool-not-found error,
and any thrown error is converted into a failed result entry; a success
carries the parsed data and source urls. -/
def execSubCall (registry : List String) (invoke : SubToolCall → SubToolOutcome)
    (tc : SubToolCall) : SubResult :=
  if tc.name ∈ registry then
    match invoke tc with
    | SubToolOutcome.throws m =>
      ⟨tc.name, tc.args, tc.ticker, none, [], some m⟩
    | SubToolOutcome.ok d urls =>
      ⟨tc.name, tc.args, tc.ticker, some d, urls, none⟩
  else
    ⟨tc.name, tc.args, tc.ticker, none, [],
     some ("Tool \x27" ++ tc.name ++ "\x27 not found")⟩

/-- The combined-result key of a successful sub-tool call: tool_ticker when
the args carry a ticker, else the tool name. -/
def subKey (r : SubResult) : String :=
  match r.ticker with
  | some t => r.tool ++ "_" ++ t
  | none => r.tool

/-- JavaScript object assignment semantics for the combinedData record:
assigning to an existing key replaces its value in place, otherwise the key
is appended. -/
def jsAssign (l : List (String × String)) (k v : String) : List (String × String) :=
  match l with
  | [] => [(k, v)]
  | (k0, v0) :: rest =>
    if k0 = k then (k0, v) :: rest else (k0, v0) :: jsAssign rest k v

/-- An _errors entry: tool, args, error message. -/
structure SubError where
  tool : String
  args : String
  error : String
deriving DecidableEq, Repr

/-- The value financial_search passes to formatToolResult: the combinedData
key/value pairs of the successful calls, the _errors entries of the failed
calls, and all collected source urls. -/
structure CombinedOutput where
  data : List (String × String)
  errorEntries : List SubError
  urls : List String
deriving DecidableEq, Repr

/-- The result-combination logic of createFinancialSearch (steps 2 to 4 of
the tool function): with no tool calls the error payload
"No tools selected for query" is returned; otherwise every call is executed
(failures caught per call), successes are keyed into combinedData in order,
failures become the _errors list, and all source urls are collected. -/
def financialSearchCombine (registry : List String)
    (invoke : SubToolCall → SubToolOutcome) (toolCalls : List SubToolCall) :
    CombinedOutput :=
  if toolCalls = [] then
    ⟨[("error", "No tools selected for query")], [], []⟩
  else
    let results := toolCalls.map (execSubCall registry invoke)
    let successfulResults := results.filter fun r => r.error = none
    let failedResults := results.filter fun r => r.error ≠ none
    let allUrls := results.flatMap fun r => r.sourceUrls
    let combinedData := successfulResults.foldl
      (fun acc r => jsAssign acc (subKey r) (r.data.getD "")) []
    ⟨combinedData,
     failedResults.map fun r => ⟨r.tool, r.args, r.error.getD ""⟩,
     allUrls⟩

/-- The combined-result key a successful sub-tool call ends up under:
tool_ticker when the args of the call carry a ticker, else the tool name. -/
def callKey (tc : SubToolCall) : String :=
  match tc.ticker with
  | some t => tc.name ++ "_" ++ t
  | none => tc.name

/-- The thinking notes of a scratchpad, in order. -/
def Scratchpad.thinkingNotes (sp : Scratchpad) : List String :=
  sp.entries.filterMap fun e =>
    match e with
    | SEntry.thinking t => some t
    | _ => none

/-- A trivial environment for concrete runs: the error classifier treats
exactly the message "overflow" as a context overflow, the token estimate is
the string length and the threshold is huge, so the proactive prune never
fires. -/
def envW : Env :=
  { isOverflow := fun s => s = "overflow", formatError := fun s => s,
    estimateTokens := fun s => s.length, contextThreshold := 1000000,
    keepToolUses := 5, systemPrompt := "sys",
    buildIterPrompt := fun q r u => q ++ "|" ++ r ++ "|" ++ u }

/-- An oracle whose model always requests one harmless tool call and whose
executor always executes it successfully. -/
def orcLoop : Oracle :=
  { model := fun _ _ => ModelOutcome.msgResp "plan" [⟨"t", "a"⟩] none,
    exec := fun _ _ => [ExecEvent.progress "t" "a" "ok"] }

/-- An oracle whose executor denies the second call of every batch. -/
def orcDeny : Oracle :=
  { model := fun _ _ => ModelOutcome.msgResp "" [⟨"t", "a"⟩] none,
    exec := fun _ _ => [ExecEvent.progress "t" "a" "ok", ExecEvent.denied "u"] }

/-- An oracle whose first two model calls throw the overflow-shaped error and
whose third call succeeds with a direct answer: the scenario of the specified
overflow-retry test property. -/
def orcOverflowTwice : Oracle :=
  { model := fun n _ =>
      if n ≤ 1 then ModelOutcome.err "overflow"
      else ModelOutcome.msgResp "answer" [] none,
    exec := fun _ _ => [] }

/-- An oracle whose model immediately returns a direct text answer. -/
def orcDirect : Oracle :=
  { model := fun _ _ => ModelOutcome.msgResp "final answer" [] none,
    exec := fun _ _ => [] }

/-- An oracle whose model always fails with a non-overflow error. -/
def orcFail : Oracle :=
  { model := fun _ _ => ModelOutcome.err "boom",
    exec := fun _ _ => [] }

/-- A concrete scratchpad with one thinking note and five full tool-use
records. -/
def spW : Scratchpad :=
  ⟨[SEntry.thinking "note",
    SEntry.toolUse "a" "1" "r1" true,
    SEntry.toolUse "b" "2" "r2" true,
    SEntry.toolUse "c" "3" "r3" true,
    SEntry.toolUse "d" "4" "r4" true,
    SEntry.toolUse "e" "5" "r5" true]⟩

/-- A concrete loop state sitting mid-run with spW as scratchpad. -/
def stW : LoopState :=
  { iteration := 2, overflowRetries := 0, modelCalls := 2, batches := 2,
    scratchpad := spW, tokens := ⟨10, 20, 30⟩, currentPrompt := "p" }

/-- A concrete sub-tool invocation behavior: the tool named a succeeds, the
tool named c throws, anything else is irrelevant. -/
def invW : SubToolCall → SubToolOutcome
  | ⟨"a", _, _⟩ => SubToolOutcome.ok "dataA" ["urlA"]
  | _ => SubToolOutcome.throws "bad request"

/-- A concrete router batch: a registered succeeding call, an unregistered
call, and a registered throwing call. -/
def callsW : List SubToolCall :=
  [⟨"a", "argsA", some "AAPL"⟩, ⟨"b", "argsB", none⟩, ⟨"c", "argsC", none⟩]

/-! Scratchpad pruning lemmas. -/

/-- A second clear pass with the same keep count discards nothing: the first
pass already dropped every full payload beyond the keep window. -/
theorem clearAux_clearAux (l : List SEntry) :
    ∀ k, (Scratchpad.clearAux k (Scratchpad.clearAux k l).1).2 = 0 := by
  induction l with
  | nil => intro k; cases k <;> rfl
  | cons e rest ih =>
    intro k
    match e, k with
    | SEntry.thinking t, k => simp [Scratchpad.clearAux, ih]
    | SEntry.toolUse n a o f, 0 => simp [Scratchpad.clearAux, ih]
    | SEntry.toolUse n a o f, k + 1 => simp [Scratchpad.clearAux, ih]

/-- Clearing a list without full payloads discards nothing. -/
theorem noFulls_clearAux (l : List SEntry) :
    ∀ k, Scratchpad.noFulls l = true → (Scratchpad.clearAux k l).2 = 0 := by
  induction l with
  | nil => intro k _; cases k <;> rfl
  | cons e rest ih =>
    intro k h
    match e, k with
    | SEntry.thinking t, k => simpa [Scratchpad.clearAux, Scratchpad.noFulls] using ih k h
    | SEntry.toolUse n a o true, k => simp [Scratchpad.noFulls] at h
    | SEntry.toolUse n a o false, 0 =>
      simp only [Scratchpad.noFulls] at h
      simpa [Scratchpad.clearAux] using ih 0 h
    | SEntry.toolUse n a o false, k + 1 =>
      simp only [Scratchpad.noFulls] at h
      simpa [Scratchpad.clearAux] using ih k h

/-- Clearing with keep count zero leaves no full payloads. -/
theorem clearAux_zero_noFulls (l : List SEntry) :
    Scratchpad.noFulls (Scratchpad.clearAux 0 l).1 = true := by
  induction l with
  | nil => rfl
  | cons e rest ih =>
    match e with
    | SEntry.thinking t => simpa [Scratchpad.clearAux, Scratchpad.noFulls] using ih
    | SEntry.toolUse n a o f => simpa [Scratchpad.clearAux, Scratchpad.noFulls] using ih

/-- Clearing preserves payload-freeness. -/
theorem noFulls_clearAux_keep (l : List SEntry) :
    ∀ k, Scratchpad.noFulls l = true → Scratchpad.noFulls (Scratchpad.clearAux k l).1 = true := by
  induction l with
  | nil => intro k _; cases k <;> rfl
  | cons e rest ih =>
    intro k h
    match e, k with
    | SEntry.thinking t, k =>
      simp only [Scratchpad.noFulls] at h
      simpa [Scratchpad.clearAux, Scratchpad.noFulls] using ih k h
    | SEntry.toolUse n a o true, k => simp [Scratchpad.noFulls] at h
    | SEntry.toolUse n a o false, 0 =>
      simp only [Scratchpad.noFulls] at h
      simpa [Scratchpad.clearAux, Scratchpad.noFulls] using ih 0 h
    | SEntry.toolUse n a o false, k + 1 =>
      simp only [Scratchpad.noFulls] at h
      simpa [Scratchpad.clearAux, Scratchpad.noFulls] using ih k h

/-- Clearing preserves the fulls-in-front discipline of most-recent-first
entry listings. -/
theorem fullsFront_clearAux (l : List SEntry) :
    ∀ k, Scratchpad.fullsFront l = true →
      Scratchpad.fullsFront (Scratchpad.clearAux k l).1 = true := by
  induction l with
  | nil => intro k _; cases k <;> rfl
  | cons e rest ih =>
    intro k h
    match e, k with
    | SEntry.thinking t, k =>
      simp only [Scratchpad.fullsFront] at h
      simpa [Scratchpad.clearAux, Scratchpad.fullsFront] using ih k h
    | SEntry.toolUse n a o true, 0 =>
      simpa [Scratchpad.clearAux, Scratchpad.fullsFront] using clearAux_zero_noFulls rest
    | SEntry.toolUse n a o false, 0 =>
      simp only [Scratchpad.fullsFront] at h
      simpa [Scratchpad.clearAux, Scratchpad.fullsFront] using clearAux_zero_noFulls rest
    | SEntry.toolUse n a o true, k + 1 =>
      simp only [Scratchpad.fullsFront] at h
      simpa [Scratchpad.clearAux, Scratchpad.fullsFront] using ih k h
    | SEntry.toolUse n a o false, k + 1 =>
      simp only [Scratchpad.fullsFront] at h
      simpa [Scratchpad.clearAux, Scratchpad.fullsFront] using noFulls_clearAux_keep rest k h

/-- A payload-free list counts zero full records. -/
theorem noFulls_countP (l : List SEntry) :
    Scratchpad.noFulls l = true → l.countP SEntry.isFull = 0 := by
  induction l with
  | nil => intro _; rfl
  | cons e rest ih =>
    intro h
    match e with
    | SEntry.thinking t =>
      simp only [Scratchpad.noFulls] at h
      simpa [List.countP_cons, SEntry.isFull] using ih h
    | SEntry.toolUse n a o true => simp [Scratchpad.noFulls] at h
    | SEntry.toolUse n a o false =>
      simp only [Scratchpad.noFulls] at h
      simpa [List.countP_cons, SEntry.isFull] using ih h

/-- With fulls in front and at most k of them, clearing with keep count k
discards nothing. -/
theorem clearAux_count_le (l : List SEntry) :
    ∀ k, Scratchpad.fullsFront l = true → l.countP SEntry.isFull ≤ k →
      (Scratchpad.clearAux k l).2 = 0 := by
  induction l with
  | nil => intro k _ _; cases k <;> rfl
  | cons e rest ih =>
    intro k h hc
    match e, k with
    | SEntry.thinking t, k =>
      simp only [Scratchpad.fullsFront] at h
      simp only [List.countP_cons, SEntry.isFull] at hc
      simpa [Scratchpad.clearAux] using ih k h (by omega)
    | SEntry.toolUse n a o true, k =>
      simp only [Scratchpad.fullsFront] at h
      simp [List.countP_cons, SEntry.isFull] at hc
      cases k with
      | zero => omega
      | succ k => simpa [Scratchpad.clearAux] using ih k h (by omega)
    | SEntry.toolUse n a o false, 0 =>
      simp only [Scratchpad.fullsFront] at h
      simpa [Scratchpad.clearAux] using noFulls_clearAux rest 0 h
    | SEntry.toolUse n a o false, k + 1 =>
      simp only [Scratchpad.fullsFront] at h
      simpa [Scratchpad.clearAux] using noFulls_clearAux rest k h

/-- Clearing only changes payload flags: any projection of the entries that
ignores the flag is unchanged. -/
theorem clearAux_filterMap {α : Type} (g : SEntry → Option α)
    (hg : ∀ n a o b, g (SEntry.toolUse n a o b) = g (SEntry.toolUse n a o true)) :
    ∀ (l : List SEntry) (k : Nat),
      ((Scratchpad.clearAux k l).1).filterMap g = l.filterMap g := by
  intro l
  induction l with
  | nil => intro k; cases k <;> rfl
  | cons e rest ih =>
    intro k
    match e, k with
    | SEntry.thinking t, k => simp [Scratchpad.clearAux, List.filterMap_cons, ih]
    | SEntry.toolUse n a o f, 0 =>
      simp only [Scratchpad.clearAux, List.filterMap_cons]
      rw [hg n a o false, hg n a o f]
      simp [ih]
    | SEntry.toolUse n a o f, k + 1 => simp [Scratchpad.clearAux, List.filterMap_cons, ih]

/-- Reversal commutes clearOldestToolResults with clearAux. -/
theorem clearOldest_def (sp : Scratchpad) (k : Nat) :
    sp.clearOldestToolResults k =
      (⟨(Scratchpad.clearAux k sp.entries.reverse).1.reverse⟩,
       (Scratchpad.clearAux k sp.entries.reverse).2) := rfl

/-- The empty scratchpad is well formed. -/
theorem WF_empty : Scratchpad.WF ⟨[]⟩ := rfl

/-- addThinking preserves scratchpad well-formedness. -/
theorem WF_addThinking (sp : Scratchpad) (t : String) (h : sp.WF) :
    (sp.addThinking t).WF := by
  unfold Scratchpad.WF Scratchpad.addThinking at *
  simpa [List.reverse_append, Scratchpad.fullsFront] using h

/-- addToolResult preserves scratchpad well-formedness. -/
theorem WF_addToolResult (sp : Scratchpad) (n a o : String) (h : sp.WF) :
    (sp.addToolResult n a o).WF := by
  unfold Scratchpad.WF Scratchpad.addToolResult at *
  simpa [List.reverse_append, Scratchpad.fullsFront] using h

/-- clearOldestToolResults preserves scratchpad well-formedness. -/
theorem WF_clearOldest (sp : Scratchpad) (k : Nat) (h : sp.WF) :
    ((sp.clearOldestToolResults k).1).WF := by
  unfold Scratchpad.WF at *
  simpa [clearOldest_def] using fullsFront_clearAux sp.entries.reverse k h

/-- Pruning preserves the thinking notes. -/
theorem clearOldest_thinkingNotes (sp : Scratchpad) (k : Nat) :
    ((sp.clearOldestToolResults k).1).thinkingNotes = sp.thinkingNotes := by
  unfold Scratchpad.thinkingNotes
  rw [clearOldest_def]
  have h := clearAux_filterMap
    (fun e => match e with | SEntry.thinking t => some t | _ => none)
    (by intro n a o b; rfl) sp.entries.reverse k
  calc ((Scratchpad.clearAux k sp.entries.reverse).1.reverse).filterMap
        (fun e => match e with | SEntry.thinking t => some t | _ => none)
      = (((Scratchpad.clearAux k sp.entries.reverse).1).filterMap
        (fun e => match e with | SEntry.thinking t => some t | _ => none)).reverse := by
        rw [List.filterMap_reverse]
    _ = ((sp.entries.reverse).filterMap
        (fun e => match e with | SEntry.thinking t => some t | _ => none)).reverse := by rw [h]
    _ = sp.entries.filterMap
        (fun e => match e with | SEntry.thinking t => some t | _ => none) := by
        rw [List.filterMap_reverse, List.reverse_reverse]

/-- Pruning preserves the compact tool-usage listing. -/
theorem clearOldest_formatToolUsage (sp : Scratchpad) (k : Nat) :
    ((sp.clearOldestToolResults k).1).formatToolUsageForPrompt =
      sp.formatToolUsageForPrompt := by
  unfold Scratchpad.formatToolUsageForPrompt
  rw [clearOldest_def]
  have h := clearAux_filterMap
    (fun e => match e with
      | SEntry.toolUse tool args _ _ => some (tool ++ "(" ++ args ++ ")")
      | _ => none)
    (by intro n a o b; rfl) sp.entries.reverse k
  rw [List.filterMap_reverse, h, List.filterMap_reverse, List.reverse_reverse]

/-- Pruning preserves the never-pruned tool-call record list. -/
theorem clearOldest_getToolCallRecords (sp : Scratchpad) (k : Nat) :
    ((sp.clearOldestToolResults k).1).getToolCallRecords = sp.getToolCallRecords := by
  unfold Scratchpad.getToolCallRecords
  rw [clearOldest_def]
  have h := clearAux_filterMap
    (fun e => match e with
      | SEntry.toolUse tool args outcome _ => some (ToolCallRecord.mk tool args outcome)
      | _ => none)
    (by intro n a o b; rfl) sp.entries.reverse k
  rw [List.filterMap_reverse, h, List.filterMap_reverse, List.reverse_reverse]

/-- The count of full records is reversal-invariant. -/
theorem countFulls_reverse (l : List SEntry) :
    l.reverse.countP SEntry.isFull = l.countP SEntry.isFull := by
  rw [List.countP_eq_length_filter, List.countP_eq_length_filter,
    List.filter_reverse, List.length_reverse]

/-- Claim C8: on every well-formed scratchpad state (the invariant of all
states reachable through the scratchpad API) and every keep count k,
clearOldestToolResults k is idempotent — a second call in a row discards 0 —
and discards 0 whenever fewer than k tool-use records hold full payloads; and
pruning never removes thinking notes and never removes entries from the
compact tool-usage summary. -/
theorem claim_C8 (sp : Scratchpad) (k : Nat) (hwf : sp.WF) :
    ((sp.clearOldestToolResults k).1.clearOldestToolResults k).2 = 0 ∧
    (sp.countFulls < k → (sp.clearOldestToolResults k).2 = 0) ∧
    ((sp.clearOldestToolResults k).1).thinkingNotes = sp.thinkingNotes ∧
    ((sp.clearOldestToolResults k).1).formatToolUsageForPrompt =
      sp.formatToolUsageForPrompt := by
  refine ⟨?_, ?_, clearOldest_thinkingNotes sp k, clearOldest_formatToolUsage sp k⟩
  · simp only [clearOldest_def, List.reverse_reverse]
    exact clearAux_clearAux sp.entries.reverse k
  · intro hc
    simp only [clearOldest_def]
    refine clearAux_count_le sp.entries.reverse k hwf ?_
    rw [countFulls_reverse]
    unfold Scratchpad.countFulls at hc
    omega

/-- Witness for claim C8 at a concrete well-formed scratchpad. -/
theorem claim_C8_witness :
    spW.WF ∧
    (((spW.clearOldestToolResults 3).1.clearOldestToolResults 3).2 = 0 ∧
     (spW.countFulls < 3 → (spW.clearOldestToolResults 3).2 = 0) ∧
     ((spW.clearOldestToolResults 3).1).thinkingNotes = spW.thinkingNotes ∧
     ((spW.clearOldestToolResults 3).1).formatToolUsageForPrompt =
       spW.formatToolUsageForPrompt) :=
  ⟨by decide, claim_C8 spW 3 (by decide)⟩

/-! Trace utilities. -/

/-- events distributes over trace concatenation. -/
theorem events_append (a b : List TraceItem) : events (a ++ b) = events a ++ events b :=
  List.filterMap_append a b _

/-- modelCallIters distributes over trace concatenation. -/
theorem modelCallIters_append (a b : List TraceItem) :
    modelCallIters (a ++ b) = modelCallIters a ++ modelCallIters b :=
  List.filterMap_append a b _

/-- The events of a pure event list are the list itself. -/
theorem events_map_ev (l : List AgentEvent) : events (l.map TraceItem.ev) = l := by
  induction l with
  | nil => rfl
  | cons e rest ih =>
    show e :: events (rest.map TraceItem.ev) = e :: rest
    rw [ih]

/-- A pure event list contributes no model calls. -/
theorem modelCallIters_map_ev (l : List AgentEvent) :
    modelCallIters (l.map TraceItem.ev) = [] := by
  induction l with
  | nil => rfl
  | cons e rest ih =>
    show modelCallIters (rest.map TraceItem.ev) = []
    exact ih

/-! processBatch lemmas. -/

/-- When the batch is not denied, every forwarded event is tool_progress. -/
theorem processBatch_progress (evts : List ExecEvent) :
    ∀ sp, (processBatch evts sp).2.2 = false →
      ∀ e ∈ (processBatch evts sp).1, ∃ n a o, e = AgentEvent.tool_progress n a o := by
  induction evts with
  | nil => intro sp _ e he; simp [processBatch] at he
  | cons x rest ih =>
    intro sp hf e he
    cases x with
    | progress n a o =>
      simp only [processBatch] at hf he
      rcases List.mem_cons.mp he with h | h
      · exact ⟨n, a, o, h⟩
      · exact ih _ hf e h
    | denied n => simp [processBatch] at hf

/-- When the batch is denied, the forwarded events are tool_progress events
followed by one final tool_denied. -/
theorem processBatch_denied (evts : List ExecEvent) :
    ∀ sp, (processBatch evts sp).2.2 = true →
      ∃ pre n, (processBatch evts sp).1 = pre ++ [AgentEvent.tool_denied n] ∧
        ∀ e ∈ pre, ∃ na a o, e = AgentEvent.tool_progress na a o := by
  induction evts with
  | nil => intro sp hf; simp [processBatch] at hf
  | cons x rest ih =>
    intro sp hf
    cases x with
    | progress n a o =>
      simp only [processBatch] at hf ⊢
      obtain ⟨pre, m, hpre, hall⟩ := ih _ hf
      refine ⟨AgentEvent.tool_progress n a o :: pre, m, by simp [hpre], ?_⟩
      intro e he
      rcases List.mem_cons.mp he with h | h
      · exact ⟨n, a, o, h⟩
      · exact hall e h
    | denied n =>
      exact ⟨[], n, rfl, by intro e he; simp at he⟩

/-- A batch whose executor events are all progress events is not denied. -/
theorem processBatch_no_denial (evts : List ExecEvent)
    (h : ∀ e ∈ evts, ∃ n a o, e = ExecEvent.progress n a o) :
    ∀ sp, (processBatch evts sp).2.2 = false := by
  induction evts with
  | nil => intro sp; rfl
  | cons x rest ih =>
    intro sp
    cases x with
    | progress n a o =>
      simp only [processBatch]
      exact ih (fun e he => h e (by simp [he])) _
    | denied n =>
      obtain ⟨n', a', o', hx⟩ := h (ExecEvent.denied n) (by simp)
      cases hx

/-! manageContextThreshold lemmas. -/

/-- The threshold check emits no events or one context_cleared event. -/
theorem manageContext_shape (env : Env) (q : String) (sp : Scratchpad) :
    (manageContextThreshold env q sp).1 = [] ∨
      ∃ c, (manageContextThreshold env q sp).1 =
        [AgentEvent.context_cleared c env.keepToolUses] := by
  unfold manageContextThreshold
  split
  · split
    · exact Or.inr ⟨_, rfl⟩
    · exact Or.inl rfl
  · exact Or.inl rfl

/-! modelPhase step equations. -/

/-- On a model error classified as overflow, with retries left and a
discarding prune, the retry path is taken: context_cleared is emitted, the
retry counter is incremented, the prompt is rebuilt from the pruned
scratchpad, and the model is called again. -/
theorem modelPhase_err_retry (env : Env) (orc : Oracle) (q : String)
    (fuel : Nat) (st : LoopState) (msg : String)
    (hm : orc.model st.modelCalls st.currentPrompt = ModelOutcome.err msg)
    (ho : env.isOverflow msg = true)
    (hr : st.overflowRetries < MAX_OVERFLOW_RETRIES)
    (hc : 0 < (st.scratchpad.clearOldestToolResults OVERFLOW_KEEP_TOOL_USES).2) :
    modelPhase env orc q (fuel + 1) st =
      (TraceItem.modelCall st.iteration ::
        TraceItem.ev (AgentEvent.context_cleared
          (st.scratchpad.clearOldestToolResults OVERFLOW_KEEP_TOOL_USES).2
          OVERFLOW_KEEP_TOOL_USES) ::
        (modelPhase env orc q fuel (retryState env q st)).1,
       (modelPhase env orc q fuel (retryState env q st)).2) := by
  conv_lhs => rw [modelPhase]
  rw [hm]
  dsimp only
  rw [if_pos ⟨ho, hr⟩, if_pos hc]

/-- On a model error with no retry available (not overflow, retries
exhausted, or nothing to prune), the terminal error done is emitted. -/
theorem modelPhase_err_fail (env : Env) (orc : Oracle) (q : String)
    (fuel : Nat) (st : LoopState) (msg : String)
    (hm : orc.model st.modelCalls st.currentPrompt = ModelOutcome.err msg)
    (h : env.isOverflow msg = false ∨ ¬ st.overflowRetries < MAX_OVERFLOW_RETRIES ∨
      (st.scratchpad.clearOldestToolResults OVERFLOW_KEEP_TOOL_USES).2 = 0) :
    modelPhase env orc q fuel st =
      ([TraceItem.modelCall st.iteration,
        TraceItem.ev (AgentEvent.done ("Error: " ++ env.formatError msg)
          st.scratchpad.getToolCallRecords st.iteration (some st.tokens))],
       none) := by
  conv_lhs => rw [modelPhase]
  rw [hm]
  dsimp only
  rcases h with h | h | h
  · rw [if_neg]
    intro hand
    rw [h] at hand
    exact Bool.false_ne_true hand.1
  · rw [if_neg (fun hand => h hand.2)]
  · by_cases hcond : env.isOverflow msg = true ∧ st.overflowRetries < MAX_OVERFLOW_RETRIES
    · rw [if_pos hcond, if_neg (by omega)]
    · rw [if_neg hcond]

/-- On a successful message response, the state advances one model call, the
retry counter resets, and the response is handed back. -/
theorem modelPhase_success_msg (env : Env) (orc : Oracle) (q : String)
    (fuel : Nat) (st : LoopState) (t : String) (cs : List ToolCallReq)
    (u : Option TokenUsage)
    (hm : orc.model st.modelCalls st.currentPrompt = ModelOutcome.msgResp t cs u) :
    modelPhase env orc q fuel st =
      ([TraceItem.modelCall st.iteration],
       some ((ModelResp.msg t cs, u),
         { st with modelCalls := st.modelCalls + 1, overflowRetries := 0 })) := by
  conv_lhs => rw [modelPhase]
  rw [hm]

/-- On a successful string response, the state advances one model call, the
retry counter resets, and the response is handed back. -/
theorem modelPhase_success_str (env : Env) (orc : Oracle) (q : String)
    (fuel : Nat) (st : LoopState) (s : String) (u : Option TokenUsage)
    (hm : orc.model st.modelCalls st.currentPrompt = ModelOutcome.strResp s u) :
    modelPhase env orc q fuel st =
      ([TraceItem.modelCall st.iteration],
       some ((ModelResp.text s, u),
         { st with modelCalls := st.modelCalls + 1, overflowRetries := 0 })) := by
  conv_lhs => rw [modelPhase]
  rw [hm]

/-- events drops a leading model-call marker. -/
@[simp] theorem events_cons_mc (i : Nat) (l : List TraceItem) :
    events (TraceItem.modelCall i :: l) = events l := rfl

/-- events keeps a leading event item. -/
@[simp] theorem events_cons_ev (e : AgentEvent) (l : List TraceItem) :
    events (TraceItem.ev e :: l) = e :: events l := rfl

/-- modelCallIters keeps a leading model-call marker. -/
@[simp] theorem modelCallIters_cons_mc (i : Nat) (l : List TraceItem) :
    modelCallIters (TraceItem.modelCall i :: l) = i :: modelCallIters l := rfl

/-- modelCallIters drops a leading event item. -/
@[simp] theorem modelCallIters_cons_ev (e : AgentEvent) (l : List TraceItem) :
    modelCallIters (TraceItem.ev e :: l) = modelCallIters l := rfl

/-- With no fuel left, a model error always produces the terminal error done
(this branch is unreachable from the loop, which supplies fuel
MAX_OVERFLOW_RETRIES + 1, but it agrees with the failure shape). -/
theorem modelPhase_err_zero (env : Env) (orc : Oracle) (q : String)
    (st : LoopState) (msg : String)
    (hm : orc.model st.modelCalls st.currentPrompt = ModelOutcome.err msg) :
    modelPhase env orc q 0 st =
      ([TraceItem.modelCall st.iteration,
        TraceItem.ev (AgentEvent.done ("Error: " ++ env.formatError msg)
          st.scratchpad.getToolCallRecords st.iteration (some st.tokens))],
       none) := by
  conv_lhs => rw [modelPhase]
  rw [hm]
  dsimp only
  split
  · split <;> rfl
  · rfl

/-- Converts failure of the retry guard into the disjunctive form used by
modelPhase_err_fail. -/
theorem retry_guard_fail (env : Env) (st : LoopState) (msg : String)
    (h : ¬ (env.isOverflow msg = true ∧ st.overflowRetries < MAX_OVERFLOW_RETRIES)) :
    env.isOverflow msg = false ∨ ¬ st.overflowRetries < MAX_OVERFLOW_RETRIES ∨
      (st.scratchpad.clearOldestToolResults OVERFLOW_KEEP_TOOL_USES).2 = 0 := by
  by_cases hb : env.isOverflow msg = true
  · exact Or.inr (Or.inl fun hr => h ⟨hb, hr⟩)
  · exact Or.inl (by simpa using hb)

/-- Shape of the modelPhase result: on failure the trace events are
context_cleared events followed by one terminal done; on success they are
context_cleared events only. -/
theorem modelPhase_events (env : Env) (orc : Oracle) (q : String) :
    ∀ (fuel : Nat) (st : LoopState),
      ((modelPhase env orc q fuel st).2 = none →
        ∃ pre a recs it u, events (modelPhase env orc q fuel st).1 =
          pre ++ [AgentEvent.done a recs it u] ∧
          ∀ e ∈ pre, e.isContextCleared = true) ∧
      (∀ r, (modelPhase env orc q fuel st).2 = some r →
        ∀ e ∈ events (modelPhase env orc q fuel st).1, e.isContextCleared = true) := by
  intro fuel
  induction fuel with
  | zero =>
    intro st
    rcases hm : orc.model st.modelCalls st.currentPrompt with msg | ⟨s, u⟩ | ⟨t, cs, u⟩
    · rw [modelPhase_err_zero env orc q st msg hm]
      constructor
      · intro _
        exact ⟨[], _, _, _, _, rfl, by intro e he; simp at he⟩
      · intro r hr; cases hr
    · rw [modelPhase_success_str env orc q 0 st s u hm]
      constructor
      · intro h; cases h
      · intro r _ e he; simp [events] at he
    · rw [modelPhase_success_msg env orc q 0 st t cs u hm]
      constructor
      · intro h; cases h
      · intro r _ e he; simp [events] at he
  | succ f ih =>
    intro st
    rcases hm : orc.model st.modelCalls st.currentPrompt with msg | ⟨s, u⟩ | ⟨t, cs, u⟩
    · by_cases hcond : env.isOverflow msg = true ∧ st.overflowRetries < MAX_OVERFLOW_RETRIES
      · by_cases hc : 0 < (st.scratchpad.clearOldestToolResults OVERFLOW_KEEP_TOOL_USES).2
        · rw [modelPhase_err_retry env orc q f st msg hm hcond.1 hcond.2 hc]
          constructor
          · intro h
            obtain ⟨pre, a, recs, it, u, hev, hall⟩ := (ih (retryState env q st)).1 h
            refine ⟨AgentEvent.context_cleared
              (st.scratchpad.clearOldestToolResults OVERFLOW_KEEP_TOOL_USES).2
              OVERFLOW_KEEP_TOOL_USES :: pre, a, recs, it, u, ?_, ?_⟩
            · simp only [events_cons_mc, events_cons_ev, hev, List.cons_append]
            · intro e he
              rcases List.mem_cons.mp he with h1 | h1
              · subst h1; rfl
              · exact hall e h1
          · intro r hr e he
            simp only [events_cons_mc, events_cons_ev] at he
            rcases List.mem_cons.mp he with h1 | h1
            · subst h1; rfl
            · exact (ih (retryState env q st)).2 r hr e h1
        · rw [modelPhase_err_fail env orc q (f + 1) st msg hm
            (Or.inr (Or.inr (by omega)))]
          constructor
          · intro _
            exact ⟨[], _, _, _, _, rfl, by intro e he; simp at he⟩
          · intro r hr; cases hr
      · rw [modelPhase_err_fail env orc q (f + 1) st msg hm
          (retry_guard_fail env st msg hcond)]
        constructor
        · intro _
          exact ⟨[], _, _, _, _, rfl, by intro e he; simp at he⟩
        · intro r hr; cases hr
    · rw [modelPhase_success_str env orc q (f + 1) st s u hm]
      constructor
      · intro h; cases h
      · intro r _ e he; simp [events] at he
    · rw [modelPhase_success_msg env orc q (f + 1) st t cs u hm]
      constructor
      · intro h; cases h
      · intro r _ e he; simp [events] at he

/-- A context_cleared event is not a done event. -/
theorem cc_not_done (e : AgentEvent) (h : e.isContextCleared = true) :
    e.isDone = false := by
  cases e <;> simp [AgentEvent.isContextCleared, AgentEvent.isDone] at h ⊢

/-- No forwarded batch event is a done event. -/
theorem processBatch_not_done (evts : List ExecEvent) :
    ∀ sp, ∀ e ∈ (processBatch evts sp).1, e.isDone = false := by
  induction evts with
  | nil => intro sp e he; simp [processBatch] at he
  | cons x rest ih =>
    intro sp e he
    cases x with
    | progress n a o =>
      simp only [processBatch] at he
      rcases List.mem_cons.mp he with h | h
      · subst h; rfl
      · exact ih _ e h
    | denied n =>
      simp only [processBatch] at he
      rcases List.mem_cons.mp he with h | h
      · subst h; rfl
      · simp at h

/-- Membership in an appended event list splits. -/
theorem not_done_append (p1 p2 : List AgentEvent)
    (h1 : ∀ e ∈ p1, e.isDone = false) (h2 : ∀ e ∈ p2, e.isDone = false) :
    ∀ e ∈ p1 ++ p2, e.isDone = false := by
  intro e he
  rcases List.mem_append.mp he with h | h
  · exact h1 e h
  · exact h2 e h

/-- No threshold-check event is a done event. -/
theorem manageContext_not_done (env : Env) (q : String) (sp : Scratchpad) :
    ∀ e ∈ (manageContextThreshold env q sp).1, e.isDone = false := by
  rcases manageContext_shape env q sp with h | ⟨c, h⟩ <;> rw [h]
  · intro e he; simp at he
  · intro e he
    rcases List.mem_cons.mp he with h1 | h1
    · subst h1; rfl
    · simp at h1

@[simp] theorem events_nil : events [] = [] := rfl

@[simp] theorem modelCallIters_nil : modelCallIters [] = [] := rfl

theorem runLoop_one_done (env : Env) (orc : Oracle) (q : String) (m : Nat) :
    ∀ (fuel : Nat) (st : LoopState),
      ∃ pre a recs it u, events (runLoop env orc q m fuel st) =
        pre ++ [AgentEvent.done a recs it u] ∧ ∀ e ∈ pre, e.isDone = false := by
  intro fuel
  induction fuel with
  | zero =>
    intro st
    exact ⟨[], _, _, _, _, rfl, by intro e he; simp at he⟩
  | succ f ih =>
    intro st0
    simp only [runLoop]
    rcases hmp : modelPhase env orc q (MAX_OVERFLOW_RETRIES + 1)
        { st0 with iteration := st0.iteration + 1 } with ⟨tr, ro⟩
    rcases ro with _ | ⟨⟨resp, usage⟩, st1⟩
    · obtain ⟨pre, a, recs, it, u, hev, hall⟩ :=
        (modelPhase_events env orc q (MAX_OVERFLOW_RETRIES + 1)
          { st0 with iteration := st0.iteration + 1 }).1 (by rw [hmp])
      rw [hmp] at hev
      exact ⟨pre, a, recs, it, u, hev, fun e he => cc_not_done e (hall e he)⟩
    · have htr : ∀ e ∈ events tr, e.isDone = false := by
        intro e he
        refine cc_not_done e ?_
        refine (modelPhase_events env orc q (MAX_OVERFLOW_RETRIES + 1)
          { st0 with iteration := st0.iteration + 1 }).2 _ (by rw [hmp]) e ?_
        rw [hmp]
        exact he
      dsimp only
      by_cases hcs : resp.calls = []
      · rw [if_pos hcs, if_neg (fun h => h.2 hcs)]
        refine ⟨events tr, resp.visibleText, st1.scratchpad.getToolCallRecords,
          st1.iteration, some (addUsage st1.tokens usage), ?_, htr⟩
        simp [events_append]
      · rw [if_neg hcs]
        by_cases hth : jsTrim resp.visibleText ≠ "" ∧ resp.calls ≠ []
        · rw [if_pos hth]
          dsimp only
          rcases hpb : processBatch
              (orc.exec st1.batches resp.calls)
              (Scratchpad.addThinking st1.scratchpad (jsTrim resp.visibleText))
            with ⟨btr, sp2, flag⟩
          have hbtr : ∀ e ∈ btr, e.isDone = false := by
            have h0 := processBatch_not_done (orc.exec st1.batches resp.calls)
              (Scratchpad.addThinking st1.scratchpad (jsTrim resp.visibleText))
            rw [hpb] at h0
            exact h0
          have hthink : ∀ e ∈ [AgentEvent.thinking (jsTrim resp.visibleText)],
              e.isDone = false := by
            intro e he
            rcases List.mem_cons.mp he with h1 | h1
            · subst h1; rfl
            · simp at h1
          cases flag
          · dsimp only
            rw [if_neg Bool.false_ne_true]
            obtain ⟨pre2, a2, recs2, it2, u2, hev2, hall2⟩ := ih _
            refine ⟨events tr ++ [AgentEvent.thinking (jsTrim resp.visibleText)] ++
              btr ++ (manageContextThreshold env q sp2).1 ++ pre2, a2, recs2, it2, u2, ?_, ?_⟩
            · rw [events_append, events_append, events_append, events_append, hev2]
              simp [events_map_ev, List.append_assoc]
            · exact not_done_append _ _ (not_done_append _ _ (not_done_append _ _
                (not_done_append _ _ htr hthink) hbtr)
                (manageContext_not_done env q sp2)) hall2
          · dsimp only
            rw [if_pos rfl]
            refine ⟨events tr ++ [AgentEvent.thinking (jsTrim resp.visibleText)] ++ btr,
              "", sp2.getToolCallRecords, st1.iteration,
              some (addUsage st1.tokens usage), ?_, ?_⟩
            · simp [events_append, events_map_ev, List.append_assoc]
            · exact not_done_append _ _ (not_done_append _ _ htr hthink) hbtr
        · rw [if_neg hth]
          dsimp only
          rcases hpb : processBatch (orc.exec st1.batches resp.calls) st1.scratchpad
            with ⟨btr, sp2, flag⟩
          have hbtr : ∀ e ∈ btr, e.isDone = false := by
            have h0 := processBatch_not_done (orc.exec st1.batches resp.calls) st1.scratchpad
            rw [hpb] at h0
            exact h0
          cases flag
          · dsimp only
            rw [if_neg Bool.false_ne_true]
            obtain ⟨pre2, a2, recs2, it2, u2, hev2, hall2⟩ := ih _
            refine ⟨events tr ++ btr ++ (manageContextThreshold env q sp2).1 ++ pre2,
              a2, recs2, it2, u2, ?_, ?_⟩
            · rw [events_append, events_append, events_append, hev2]
              simp [events_map_ev, List.append_assoc]
            · exact not_done_append _ _ (not_done_append _ _ (not_done_append _ _
                htr hbtr) (manageContext_not_done env q sp2)) hall2
          · dsimp only
            rw [if_pos rfl]
            refine ⟨events tr ++ btr, "", sp2.getToolCallRecords, st1.iteration,
              some (addUsage st1.tokens usage), ?_, ?_⟩
            · simp [events_append, events_map_ev, List.append_assoc]
            · exact not_done_append _ _ htr hbtr

/-- No tool_denied event occurs in an event-free trace. -/
theorem no_td_nil : ∀ n : String,
    AgentEvent.tool_denied n ∉ events ([] : List TraceItem) := by
  intro n hmem
  simp at hmem

/-- No tool_denied event occurs in a thinking singleton. -/
theorem no_td_think (s : String) : ∀ n : String,
    AgentEvent.tool_denied n ∉ events [TraceItem.ev (AgentEvent.thinking s)] := by
  intro n hmem
  simp [events] at hmem

/-- tool_denied does not occur in an appended trace when it occurs in
neither part. -/
theorem no_td_events_append (p1 p2 : List TraceItem)
    (h1 : ∀ n : String, AgentEvent.tool_denied n ∉ events p1)
    (h2 : ∀ n : String, AgentEvent.tool_denied n ∉ events p2) :
    ∀ n : String, AgentEvent.tool_denied n ∉ events (p1 ++ p2) := by
  intro n hmem
  rw [events_append] at hmem
  rcases List.mem_append.mp hmem with h | h
  · exact h1 n h
  · exact h2 n h

/-- A tool_denied occurrence in an appended trace whose front is
denial-free lies in the tail. -/
theorem td_in_tail (p1 p2 : List TraceItem) (n : String)
    (h1 : ∀ n2 : String, AgentEvent.tool_denied n2 ∉ events p1)
    (htd : AgentEvent.tool_denied n ∈ events (p1 ++ p2)) :
    AgentEvent.tool_denied n ∈ events p2 := by
  rw [events_append] at htd
  rcases List.mem_append.mp htd with h | h
  · exact absurd h (h1 n)
  · exact h

/-- A list of progress events contains no tool_denied. -/
theorem no_td_progress_list (l : List AgentEvent)
    (h : ∀ e ∈ l, ∃ na a o, e = AgentEvent.tool_progress na a o) :
    ∀ n : String, AgentEvent.tool_denied n ∉ events (l.map TraceItem.ev) := by
  intro n hmem
  rw [events_map_ev] at hmem
  obtain ⟨na, a, o, heq⟩ := h _ hmem
  cases heq

/-- The threshold-check events contain no tool_denied. -/
theorem no_td_mc (env : Env) (q : String) (sp : Scratchpad) :
    ∀ n : String, AgentEvent.tool_denied n ∉
      events ((manageContextThreshold env q sp).1.map TraceItem.ev) := by
  intro n hmem
  rw [events_map_ev] at hmem
  rcases manageContext_shape env q sp with h | ⟨c, h⟩ <;> rw [h] at hmem <;> simp at hmem

/-- If a run of the loop reaches a denial, the trace is a denial-free front
followed by the tool_denied event and the terminal empty-answer done, with
nothing after them. -/
theorem runLoop_denied (env : Env) (orc : Oracle) (q : String) (m : Nat) :
    ∀ (fuel : Nat) (st : LoopState) (n : String),
      AgentEvent.tool_denied n ∈ events (runLoop env orc q m fuel st) →
      ∃ pre n2 recs it u, runLoop env orc q m fuel st =
        pre ++ [TraceItem.ev (AgentEvent.tool_denied n2),
                TraceItem.ev (AgentEvent.done "" recs it u)] := by
  intro fuel
  induction fuel with
  | zero =>
    intro st n htd
    simp [runLoop, events] at htd
  | succ f ih =>
    intro st0 n
    simp only [runLoop]
    rcases hmp : modelPhase env orc q (MAX_OVERFLOW_RETRIES + 1)
        { st0 with iteration := st0.iteration + 1 } with ⟨tr, ro⟩
    rcases ro with _ | ⟨⟨resp, usage⟩, st1⟩
    · intro htd
      obtain ⟨pre, a, recs, it, u, hev, hall⟩ :=
        (modelPhase_events env orc q (MAX_OVERFLOW_RETRIES + 1)
          { st0 with iteration := st0.iteration + 1 }).1 (by rw [hmp])
      rw [hmp] at hev
      exfalso
      have htd2 : AgentEvent.tool_denied n ∈ events tr := htd
      rw [hev] at htd2
      rcases List.mem_append.mp htd2 with h1 | h1
      · have := hall _ h1
        simp [AgentEvent.isContextCleared] at this
      · simp at h1
    · have hcc : ∀ e ∈ events tr, e.isContextCleared = true := by
        intro e he
        refine (modelPhase_events env orc q (MAX_OVERFLOW_RETRIES + 1)
          { st0 with iteration := st0.iteration + 1 }).2 _ (by rw [hmp]) e ?_
        rw [hmp]
        exact he
      have no_td_tr : ∀ n2 : String, AgentEvent.tool_denied n2 ∉ events tr := by
        intro n2 hmem
        have := hcc _ hmem
        simp [AgentEvent.isContextCleared] at this
      dsimp only
      by_cases hcs : resp.calls = []
      · rw [if_pos hcs, if_neg (fun h => h.2 hcs)]
        intro htd
        exfalso
        have h2 := td_in_tail _ _ n
          (no_td_events_append _ _ no_td_tr no_td_nil) htd
        simp [events] at h2
      · rw [if_neg hcs]
        by_cases hth : jsTrim resp.visibleText ≠ "" ∧ resp.calls ≠ []
        · rw [if_pos hth]
          dsimp only
          rcases hpb : processBatch
              (orc.exec st1.batches resp.calls)
              (Scratchpad.addThinking st1.scratchpad (jsTrim resp.visibleText))
            with ⟨btr, sp2, flag⟩
          cases flag
          · dsimp only
            rw [if_neg Bool.false_ne_true]
            intro htd
            have hprog : ∀ e ∈ btr, ∃ na a o, e = AgentEvent.tool_progress na a o := by
              have h0 := processBatch_progress (orc.exec st1.batches resp.calls)
                (Scratchpad.addThinking st1.scratchpad (jsTrim resp.visibleText))
              rw [hpb] at h0
              exact h0 rfl
            have htd2 := td_in_tail _ _ n
              (no_td_events_append _ _ (no_td_events_append _ _
                (no_td_events_append _ _ no_td_tr
                  (no_td_think (jsTrim resp.visibleText)))
                (no_td_progress_list btr hprog)) (no_td_mc env q sp2)) htd
            obtain ⟨pre2, n2, recs2, it2, u2, hrl⟩ := ih _ n htd2
            rw [hrl]
            refine ⟨tr ++ [TraceItem.ev (AgentEvent.thinking (jsTrim resp.visibleText))] ++
              btr.map TraceItem.ev ++
              (manageContextThreshold env q sp2).1.map TraceItem.ev ++ pre2,
              n2, recs2, it2, u2, ?_⟩
            simp [List.append_assoc]
          · dsimp only
            rw [if_pos rfl]
            intro _
            have hfl : (processBatch (orc.exec st1.batches resp.calls)
                (Scratchpad.addThinking st1.scratchpad
                  (jsTrim resp.visibleText))).2.2 = true := by
              rw [hpb]
            obtain ⟨preB, n0, hbeq, hallB⟩ := processBatch_denied
              (orc.exec st1.batches resp.calls)
              (Scratchpad.addThinking st1.scratchpad (jsTrim resp.visibleText)) hfl
            have hbeq2 : btr = preB ++ [AgentEvent.tool_denied n0] := by
              rw [hpb] at hbeq
              exact hbeq
            refine ⟨tr ++ [TraceItem.ev (AgentEvent.thinking (jsTrim resp.visibleText))] ++
              preB.map TraceItem.ev, n0, sp2.getToolCallRecords, st1.iteration,
              some (addUsage st1.tokens usage), ?_⟩
            rw [hbeq2]
            simp [List.map_append, List.append_assoc]
        · rw [if_neg hth]
          dsimp only
          rcases hpb : processBatch (orc.exec st1.batches resp.calls) st1.scratchpad
            with ⟨btr, sp2, flag⟩
          cases flag
          · dsimp only
            rw [if_neg Bool.false_ne_true]
            intro htd
            have hprog : ∀ e ∈ btr, ∃ na a o, e = AgentEvent.tool_progress na a o := by
              have h0 := processBatch_progress (orc.exec st1.batches resp.calls)
                st1.scratchpad
              rw [hpb] at h0
              exact h0 rfl
            have htd2 := td_in_tail _ _ n
              (no_td_events_append _ _ (no_td_events_append _ _
                (no_td_events_append _ _ no_td_tr no_td_nil)
                (no_td_progress_list btr hprog)) (no_td_mc env q sp2)) htd
            obtain ⟨pre2, n2, recs2, it2, u2, hrl⟩ := ih _ n htd2
            rw [hrl]
            refine ⟨tr ++ [] ++ btr.map TraceItem.ev ++
              (manageContextThreshold env q sp2).1.map TraceItem.ev ++ pre2,
              n2, recs2, it2, u2, ?_⟩
            simp [List.append_assoc]
          · dsimp only
            rw [if_pos rfl]
            intro _
            have hfl : (processBatch (orc.exec st1.batches resp.calls)
                st1.scratchpad).2.2 = true := by
              rw [hpb]
            obtain ⟨preB, n0, hbeq, hallB⟩ := processBatch_denied
              (orc.exec st1.batches resp.calls) st1.scratchpad hfl
            have hbeq2 : btr = preB ++ [AgentEvent.tool_denied n0] := by
              rw [hpb] at hbeq
              exact hbeq
            refine ⟨tr ++ [] ++ preB.map TraceItem.ev, n0, sp2.getToolCallRecords,
              st1.iteration, some (addUsage st1.tokens usage), ?_⟩
            rw [hbeq2]
            simp [List.map_append, List.append_assoc]

/-- When the model always returns tool calls and the executor never denies,
every loop pass makes exactly one model call (at iterations start+1, start+2,
...) and the run ends in the max-iterations done with the final iteration
count. -/
theorem runLoop_max_iter (env : Env) (orc : Oracle) (q : String) (m : Nat)
    (hM : ∀ (k : Nat) (p : String), ∃ t cs u,
      orc.model k p = ModelOutcome.msgResp t cs u ∧ cs ≠ [])
    (hE : ∀ (k : Nat) (cs : List ToolCallReq),
      ∀ e ∈ orc.exec k cs, ∃ na a o, e = ExecEvent.progress na a o) :
    ∀ (fuel : Nat) (st : LoopState),
      modelCallIters (runLoop env orc q m fuel st) =
        List.range' (st.iteration + 1) fuel ∧
      ∃ pre recs u, events (runLoop env orc q m fuel st) =
        pre ++ [AgentEvent.done (maxIterAnswer m) recs (st.iteration + fuel) (some u)] := by
  intro fuel
  induction fuel with
  | zero =>
    intro st
    exact ⟨rfl, [], st.scratchpad.getToolCallRecords, st.tokens, rfl⟩
  | succ f ih =>
    intro st0
    obtain ⟨t, cs, u, hm, hcs⟩ := hM st0.modelCalls st0.currentPrompt
    simp only [runLoop]
    rw [modelPhase_success_msg env orc q (MAX_OVERFLOW_RETRIES + 1)
      { st0 with iteration := st0.iteration + 1 } t cs u hm]
    dsimp only [ModelResp.calls, ModelResp.visibleText]
    rw [if_neg hcs]
    by_cases hth : jsTrim t ≠ "" ∧ cs ≠ []
    · rw [if_pos hth]
      dsimp only
      rcases hpb : processBatch (orc.exec st0.batches cs)
          (Scratchpad.addThinking st0.scratchpad (jsTrim t)) with ⟨btr, sp2, flag⟩
      have hnd : flag = false := by
        have h0 := processBatch_no_denial (orc.exec st0.batches cs)
          (hE st0.batches cs) (Scratchpad.addThinking st0.scratchpad (jsTrim t))
        rw [hpb] at h0
        exact h0
      subst hnd
      dsimp only
      rw [if_neg Bool.false_ne_true]
      obtain ⟨hmc_ih, pre2, recs2, u2, hev2⟩ := ih _
      constructor
      · simp only [modelCallIters_append, modelCallIters_cons_mc,
          modelCallIters_cons_ev, modelCallIters_nil, modelCallIters_map_ev,
          List.append_nil, List.nil_append, List.singleton_append]
        rw [hmc_ih, List.range'_succ]
      · refine ⟨[AgentEvent.thinking (jsTrim t)] ++ btr ++
          (manageContextThreshold env q sp2).1 ++ pre2, recs2, u2, ?_⟩
        rw [events_append, events_append, events_append, events_append, hev2]
        dsimp only
        have harith : st0.iteration + 1 + f = st0.iteration + (f + 1) := by omega
        rw [harith]
        simp [events_map_ev, List.append_assoc]
    · rw [if_neg hth]
      dsimp only
      rcases hpb : processBatch (orc.exec st0.batches cs) st0.scratchpad
        with ⟨btr, sp2, flag⟩
      have hnd : flag = false := by
        have h0 := processBatch_no_denial (orc.exec st0.batches cs)
          (hE st0.batches cs) st0.scratchpad
        rw [hpb] at h0
        exact h0
      subst hnd
      dsimp only
      rw [if_neg Bool.false_ne_true]
      obtain ⟨hmc_ih, pre2, recs2, u2, hev2⟩ := ih _
      constructor
      · simp only [modelCallIters_append, modelCallIters_cons_mc,
          modelCallIters_cons_ev, modelCallIters_nil, modelCallIters_map_ev,
          List.append_nil, List.nil_append, List.singleton_append]
        rw [hmc_ih, List.range'_succ]
      · refine ⟨[] ++ btr ++ (manageContextThreshold env q sp2).1 ++ pre2,
          recs2, u2, ?_⟩
        rw [events_append, events_append, events_append, events_append, hev2]
        dsimp only
        have harith : st0.iteration + 1 + f = st0.iteration + (f + 1) := by omega
        rw [harith]
        simp [events_map_ev, List.append_assoc]

/-- Claim C1: with maxIterations = N (N at least 1), a model that always
responds with tool calls, and an executor that never denies and never
overflows, the run makes exactly N model calls — one per pass, with the
iteration counter read at the calls being 1, 2, ..., N, so it starts at 0,
is incremented once at the top of each pass, and never exceeds
maxIterations — and then emits a terminal done whose answer is the
maximum-iterations message and whose iterations field equals N. -/
theorem claim_C1 (env : Env) (orc : Oracle) (tools : List String) (N : Nat)
    (q ip : String) (htools : tools ≠ []) (_hN : 1 ≤ N)
    (hM : ∀ (k : Nat) (p : String), ∃ t cs u,
      orc.model k p = ModelOutcome.msgResp t cs u ∧ cs ≠ [])
    (hE : ∀ (k : Nat) (cs : List ToolCallReq),
      ∀ e ∈ orc.exec k cs, ∃ na a o, e = ExecEvent.progress na a o) :
    modelCallIters (agentRun env orc tools N q ip) = List.range' 1 N ∧
    (∀ i ∈ modelCallIters (agentRun env orc tools N q ip), 1 ≤ i ∧ i ≤ N) ∧
    (∃ pre recs u, events (agentRun env orc tools N q ip) =
      pre ++ [AgentEvent.done (maxIterAnswer N) recs N (some u)]) ∧
    (events (agentRun env orc tools N q ip)).countP AgentEvent.isDone = 1 := by
  have hne : tools.isEmpty = false := by
    cases tools with
    | nil => exact absurd rfl htools
    | cons a l => rfl
  unfold agentRun
  rw [hne]
  simp only [Bool.false_eq_true, if_false]
  obtain ⟨hiters, pre, recs, u, hev⟩ :=
    runLoop_max_iter env orc q N hM hE N (initState ip)
  have h0 : (initState ip).iteration + N = N := by
    show 0 + N = N
    omega
  rw [h0] at hev
  have hiters0 : modelCallIters (runLoop env orc q N N (initState ip)) =
      List.range' 1 N := hiters
  refine ⟨hiters0, ?_, ⟨pre, recs, u, hev⟩, ?_⟩
  · intro i hi
    rw [hiters0] at hi
    have := List.mem_range'_1.mp hi
    omega
  · obtain ⟨pre2, a2, recs2, it2, u2, hev2, hall2⟩ :=
      runLoop_one_done env orc q N N (initState ip)
    rw [hev2, List.countP_append]
    have hz : pre2.countP AgentEvent.isDone = 0 := List.countP_eq_zero.mpr (by
      intro e he
      simp [hall2 e he])
    rw [hz]
    rfl

/-- Witness for claim C1 at a concrete oracle that always requests one
harmless tool call, with N = 2. -/
theorem claim_C1_witness :
    (["t"] ≠ ([] : List String)) ∧ 1 ≤ 2 ∧
    (modelCallIters (agentRun envW orcLoop ["t"] 2 "q" "q") = List.range' 1 2 ∧
     (∀ i ∈ modelCallIters (agentRun envW orcLoop ["t"] 2 "q" "q"), 1 ≤ i ∧ i ≤ 2) ∧
     (∃ pre recs u, events (agentRun envW orcLoop ["t"] 2 "q" "q") =
       pre ++ [AgentEvent.done (maxIterAnswer 2) recs 2 (some u)]) ∧
     (events (agentRun envW orcLoop ["t"] 2 "q" "q")).countP AgentEvent.isDone = 1) :=
  ⟨by decide, by decide,
   claim_C1 envW orcLoop ["t"] 2 "q" "q" (by decide) (by decide)
     (fun k p => ⟨"plan", [⟨"t", "a"⟩], none, rfl, by decide⟩)
     (fun k cs e he => by
       rcases List.mem_cons.mp he with h | h
       · exact ⟨"t", "a", "ok", h⟩
       · simp at h)⟩

/-- Claim C5: the event sequence of every run is a finite list that contains
exactly one done event, and that done event is the last element, with no
event of any kind after it. -/
theorem claim_C5 (env : Env) (orc : Oracle) (tools : List String)
    (mi : Nat) (q ip : String) :
    (events (agentRun env orc tools mi q ip)).countP AgentEvent.isDone = 1 ∧
    ∃ pre a recs it u, events (agentRun env orc tools mi q ip) =
      pre ++ [AgentEvent.done a recs it u] ∧
      pre.countP AgentEvent.isDone = 0 := by
  unfold agentRun
  by_cases ht : tools.isEmpty
  · rw [if_pos ht]
    exact ⟨rfl, [], _, _, _, _, rfl, rfl⟩
  · rw [if_neg ht]
    obtain ⟨pre, a, recs, it, u, hev, hall⟩ :=
      runLoop_one_done env orc q mi mi (initState ip)
    have hz : pre.countP AgentEvent.isDone = 0 := List.countP_eq_zero.mpr (by
      intro e he
      simp [hall e he])
    refine ⟨?_, pre, a, recs, it, u, hev, hz⟩
    rw [hev, List.countP_append, hz]
    rfl

/-- Claim C4: whenever the tool executor signals denial, the run emits
tool_denied followed immediately by a terminal done whose answer is the
empty string, and these are the final two trace items, so no model call
occurs after the denial. -/
theorem claim_C4 (env : Env) (orc : Oracle) (tools : List String)
    (mi : Nat) (q ip : String) (n : String)
    (htd : AgentEvent.tool_denied n ∈ events (agentRun env orc tools mi q ip)) :
    ∃ pre n2 recs it u, agentRun env orc tools mi q ip =
      pre ++ [TraceItem.ev (AgentEvent.tool_denied n2),
              TraceItem.ev (AgentEvent.done "" recs it u)] := by
  unfold agentRun at htd ⊢
  by_cases ht : tools.isEmpty
  · rw [if_pos ht] at htd
    exfalso
    simp [events] at htd
  · rw [if_neg ht] at htd ⊢
    exact runLoop_denied env orc q mi mi (initState ip) n htd

/-- Witness for claim C4 at a concrete oracle whose executor denies the
second call of the batch. -/
theorem claim_C4_witness :
    (AgentEvent.tool_denied "u" ∈ events (agentRun envW orcDeny ["t"] 3 "q" "q")) ∧
    (∃ pre n2 recs it u, agentRun envW orcDeny ["t"] 3 "q" "q" =
      pre ++ [TraceItem.ev (AgentEvent.tool_denied n2),
              TraceItem.ev (AgentEvent.done "" recs it u)]) :=
  ⟨by decide, claim_C4 envW orcDeny ["t"] 3 "q" "q" "u" (by decide)⟩

/-- Claim C9: with an empty tool registry, the run emits exactly one event:
a done with the no-tools message, empty toolCalls, iterations 0 (and no
token-usage field), and the model is never called. -/
theorem claim_C9 (env : Env) (orc : Oracle) (mi : Nat) (q ip : String) :
    agentRun env orc [] mi q ip =
      [TraceItem.ev (AgentEvent.done
        "No tools available. Please check your API key configuration." [] 0 none)] ∧
    modelCallIters (agentRun env orc [] mi q ip) = [] :=
  ⟨rfl, rfl⟩

/-- Claim C2: when a model call throws an error, then if the error is
classified as context overflow, the retry counter is below
MAX_OVERFLOW_RETRIES, and pruning to OVERFLOW_KEEP_TOOL_USES discards at
least one record, the loop emits context_cleared, increments the retry
counter, rebuilds the prompt from the pruned scratchpad (retryState) and
retries the model call; otherwise (not overflow, retries exhausted, or
nothing pruned) it emits a terminal done whose answer is the formatted
user-facing error and whose toolCalls field is the tool-call history so
far, and terminates. -/
theorem claim_C2 (env : Env) (orc : Oracle) (q : String) (fuel : Nat)
    (st : LoopState) (msg : String)
    (hm : orc.model st.modelCalls st.currentPrompt = ModelOutcome.err msg) :
    ((env.isOverflow msg = true ∧ st.overflowRetries < MAX_OVERFLOW_RETRIES ∧
        0 < (st.scratchpad.clearOldestToolResults OVERFLOW_KEEP_TOOL_USES).2) →
      modelPhase env orc q (fuel + 1) st =
        (TraceItem.modelCall st.iteration ::
          TraceItem.ev (AgentEvent.context_cleared
            (st.scratchpad.clearOldestToolResults OVERFLOW_KEEP_TOOL_USES).2
            OVERFLOW_KEEP_TOOL_USES) ::
          (modelPhase env orc q fuel (retryState env q st)).1,
         (modelPhase env orc q fuel (retryState env q st)).2)) ∧
    ((env.isOverflow msg = false ∨ ¬ st.overflowRetries < MAX_OVERFLOW_RETRIES ∨
        (st.scratchpad.clearOldestToolResults OVERFLOW_KEEP_TOOL_USES).2 = 0) →
      modelPhase env orc q (fuel + 1) st =
        ([TraceItem.modelCall st.iteration,
          TraceItem.ev (AgentEvent.done ("Error: " ++ env.formatError msg)
            st.scratchpad.getToolCallRecords st.iteration (some st.tokens))],
         none)) :=
  ⟨fun h => modelPhase_err_retry env orc q fuel st msg hm h.1 h.2.1 h.2.2,
   fun h => modelPhase_err_fail env orc q (fuel + 1) st msg hm h⟩

/-- Witness for claim C2: the retry path at an overflow error over a
prunable scratchpad, and the terminal path at a non-overflow error. -/
theorem claim_C2_witness :
    (modelPhase envW orcOverflowTwice "q" (2 + 1) { stW with modelCalls := 0 } =
      (TraceItem.modelCall 2 ::
        TraceItem.ev (AgentEvent.context_cleared 2 OVERFLOW_KEEP_TOOL_USES) ::
        (modelPhase envW orcOverflowTwice "q" 2
          (retryState envW "q" { stW with modelCalls := 0 })).1,
       (modelPhase envW orcOverflowTwice "q" 2
         (retryState envW "q" { stW with modelCalls := 0 })).2)) ∧
    (modelPhase envW orcFail "q" (2 + 1) stW =
      ([TraceItem.modelCall 2,
        TraceItem.ev (AgentEvent.done "Error: boom"
          stW.scratchpad.getToolCallRecords 2 (some stW.tokens))],
       none)) :=
  ⟨(claim_C2 envW orcOverflowTwice "q" 2 { stW with modelCalls := 0 } "overflow"
      rfl).1 (by refine ⟨rfl, by decide, by decide⟩),
   (claim_C2 envW orcFail "q" 2 stW "boom" rfl).2 (Or.inl (by decide))⟩

/-- Claim C6: the proactive threshold check estimates the token count of
systemPrompt + query + full tool-results text; it prunes the scratchpad to
KEEP_TOOL_USES if and only if the estimate exceeds CONTEXT_THRESHOLD, and it
emits a context_cleared event exactly when it pruned and the prune discarded
at least one record.  The loop runs this after each non-denied batch, before
rebuilding the prompt for the next model call. -/
theorem claim_C6 (env : Env) (q : String) (sp : Scratchpad) :
    ((manageContextThreshold env q sp).2 =
      if env.estimateTokens (env.systemPrompt ++ q ++ sp.getToolResults) >
          env.contextThreshold
      then (sp.clearOldestToolResults env.keepToolUses).1 else sp) ∧
    ((manageContextThreshold env q sp).1 =
      if env.estimateTokens (env.systemPrompt ++ q ++ sp.getToolResults) >
            env.contextThreshold ∧
          0 < (sp.clearOldestToolResults env.keepToolUses).2
      then [AgentEvent.context_cleared
        (sp.clearOldestToolResults env.keepToolUses).2 env.keepToolUses]
      else []) ∧
    ((manageContextThreshold env q sp).1 ≠ [] ↔
      env.estimateTokens (env.systemPrompt ++ q ++ sp.getToolResults) >
          env.contextThreshold ∧
        0 < (sp.clearOldestToolResults env.keepToolUses).2) := by
  unfold manageContextThreshold
  by_cases h1 : env.estimateTokens (env.systemPrompt ++ q ++ sp.getToolResults) >
      env.contextThreshold
  · by_cases h2 : 0 < (sp.clearOldestToolResults env.keepToolUses).2
    · simp [h1, h2]
    · simp [h1, h2]
  · simp [h1]

/-- Counterexample for claim C3: a model that throws the overflow-shaped
error on its first two calls and then succeeds does not complete
successfully with two context_cleared events — the scratchpad is empty at
the first call, so pruning discards nothing and the run terminates at once
with an error done and zero context_cleared events. -/
theorem claim_C3_counterexample :
    events (agentRun envW orcOverflowTwice ["t"] 5 "q" "q") =
      [AgentEvent.done "Error: overflow" [] 1 (some ⟨0, 0, 0⟩)] ∧
    (events (agentRun envW orcOverflowTwice ["t"] 5 "q" "q")).countP
      AgentEvent.isContextCleared = 0 := by
  constructor <;> decide

/-- Claim C3 (amended): if the first model call of a run throws a
context-overflow-classified error, then — because the scratchpad is empty
at that point, so pruning discards nothing — the run terminates immediately
with a terminal error done after exactly one model call, emitting no
context_cleared events (the original scenario of two discarding prunes
before any tool result exists is unsatisfiable). -/
theorem claim_C3_amended (env : Env) (orc : Oracle) (tools : List String)
    (N : Nat) (q ip msg : String) (htools : tools ≠ []) (hN : 1 ≤ N)
    (hm : orc.model 0 ip = ModelOutcome.err msg)
    (_ho : env.isOverflow msg = true) :
    agentRun env orc tools N q ip =
      [TraceItem.modelCall 1,
       TraceItem.ev (AgentEvent.done ("Error: " ++ env.formatError msg) [] 1
         (some ⟨0, 0, 0⟩))] ∧
    (events (agentRun env orc tools N q ip)).countP
      AgentEvent.isContextCleared = 0 := by
  have hne : tools.isEmpty = false := by
    cases tools with
    | nil => exact absurd rfl htools
    | cons a l => rfl
  obtain ⟨f, rfl⟩ : ∃ f, N = f + 1 := ⟨N - 1, by omega⟩
  unfold agentRun
  rw [hne]
  simp only [Bool.false_eq_true, if_false]
  simp only [runLoop]
  rw [modelPhase_err_fail env orc q (MAX_OVERFLOW_RETRIES + 1)
    { initState ip with iteration := (initState ip).iteration + 1 } msg hm
    (Or.inr (Or.inr rfl))]
  exact ⟨rfl, rfl⟩

/-- Witness for claim C3 (amended) at the concrete overflow-twice oracle. -/
theorem claim_C3_amended_witness :
    (agentRun envW orcOverflowTwice ["t"] 5 "q" "q" =
      [TraceItem.modelCall 1,
       TraceItem.ev (AgentEvent.done "Error: overflow" [] 1 (some ⟨0, 0, 0⟩))]) ∧
    (events (agentRun envW orcOverflowTwice ["t"] 5 "q" "q")).countP
      AgentEvent.isContextCleared = 0 :=
  claim_C3_amended envW orcOverflowTwice ["t"] 5 "q" "q" "overflow"
    (by decide) (by decide) rfl rfl

/-- Claim C7: when a model response carries no tool calls and has non-empty
visible text, the loop emits that text as the final answer in a terminal
done event carrying the never-pruned tool-call records, the iteration
count, and the accumulated token statistics, and terminates; this covers
both the message-shaped and plain-string response variants. -/
theorem claim_C7 (env : Env) (orc : Oracle) (q : String) (m : Nat)
    (fuel : Nat) (st0 : LoopState) :
    (∀ t u, orc.model st0.modelCalls st0.currentPrompt =
        ModelOutcome.msgResp t [] u → jsTrim t ≠ "" →
      runLoop env orc q m (fuel + 1) st0 =
        [TraceItem.modelCall (st0.iteration + 1),
         TraceItem.ev (AgentEvent.done t st0.scratchpad.getToolCallRecords
           (st0.iteration + 1) (some (addUsage st0.tokens u)))]) ∧
    (∀ s u, orc.model st0.modelCalls st0.currentPrompt =
        ModelOutcome.strResp s u → jsTrim s ≠ "" →
      runLoop env orc q m (fuel + 1) st0 =
        [TraceItem.modelCall (st0.iteration + 1),
         TraceItem.ev (AgentEvent.done s st0.scratchpad.getToolCallRecords
           (st0.iteration + 1) (some (addUsage st0.tokens u)))]) := by
  have hemp : ([] : List ToolCallReq) = [] := rfl
  constructor
  · intro t u hm ht
    simp only [runLoop]
    rw [modelPhase_success_msg env orc q (MAX_OVERFLOW_RETRIES + 1)
      { st0 with iteration := st0.iteration + 1 } t [] u hm]
    dsimp only [ModelResp.calls, ModelResp.visibleText]
    rw [if_pos hemp, if_neg (fun h => h.2 hemp)]
    rfl
  · intro s u hm hs
    simp only [runLoop]
    rw [modelPhase_success_str env orc q (MAX_OVERFLOW_RETRIES + 1)
      { st0 with iteration := st0.iteration + 1 } s u hm]
    dsimp only [ModelResp.calls, ModelResp.visibleText]
    rw [if_pos hemp, if_neg (fun h => h.2 hemp)]
    rfl

/-- Witness for claim C7 at a concrete oracle that answers directly. -/
theorem claim_C7_witness :
    runLoop envW orcDirect "q" 5 (4 + 1) (initState "q") =
      [TraceItem.modelCall 1,
       TraceItem.ev (AgentEvent.done "final answer" [] 1 (some ⟨0, 0, 0⟩))] :=
  (claim_C7 envW orcDirect "q" 5 4 (initState "q")).1 "final answer" none
    rfl (by decide)

/-- jsAssign puts the assigned key among the keys. -/
theorem jsAssign_key_mem (l : List (String × String)) (k v : String) :
    k ∈ (jsAssign l k v).map Prod.fst := by
  induction l with
  | nil => simp [jsAssign]
  | cons p rest ih =>
    rcases p with ⟨k0, v0⟩
    by_cases h : k0 = k
    · simp [jsAssign, h]
    · simp only [jsAssign, if_neg h, List.map_cons, List.mem_cons]
      exact Or.inr ih

/-- jsAssign keeps every existing key. -/
theorem jsAssign_key_preserved (l : List (String × String)) (k v a : String)
    (ha : a ∈ l.map Prod.fst) : a ∈ (jsAssign l k v).map Prod.fst := by
  induction l with
  | nil => simp at ha
  | cons p rest ih =>
    rcases p with ⟨k0, v0⟩
    by_cases h : k0 = k
    · simpa [jsAssign, h] using ha
    · simp only [List.map_cons, List.mem_cons] at ha
      simp only [jsAssign, if_neg h, List.map_cons, List.mem_cons]
      rcases ha with ha | ha
      · exact Or.inl ha
      · exact Or.inr (ih ha)

/-- Folding combinedData assignments keeps every initial key. -/
theorem fold_key_preserved (rs : List SubResult) :
    ∀ (init : List (String × String)) (a : String), a ∈ init.map Prod.fst →
      a ∈ (rs.foldl (fun acc r2 => jsAssign acc (subKey r2) (r2.data.getD ""))
        init).map Prod.fst := by
  induction rs with
  | nil => intro init a ha; simpa using ha
  | cons r0 rest ih =>
    intro init a ha
    exact ih _ a (jsAssign_key_preserved init (subKey r0) (r0.data.getD "") a ha)

/-- The key of every folded result appears among the combinedData keys. -/
theorem fold_key_mem (rs : List SubResult) :
    ∀ (init : List (String × String)) (r : SubResult), r ∈ rs →
      subKey r ∈ (rs.foldl (fun acc r2 => jsAssign acc (subKey r2) (r2.data.getD ""))
        init).map Prod.fst := by
  induction rs with
  | nil => intro init r hr; simp at hr
  | cons r0 rest ih =>
    intro init r hr
    rcases List.mem_cons.mp hr with h | h
    · subst h
      exact fold_key_preserved rest _ _ (jsAssign_key_mem init (subKey r) _)
    · exact ih _ r h

/-- The per-call executor reports the tool name of the call. -/
theorem execSubCall_tool (registry : List String)
    (invoke : SubToolCall → SubToolOutcome) (tc : SubToolCall) :
    (execSubCall registry invoke tc).tool = tc.name := by
  unfold execSubCall
  split
  · split <;> rfl
  · rfl

/-- The per-call executor reports the arguments of the call. -/
theorem execSubCall_args (registry : List String)
    (invoke : SubToolCall → SubToolOutcome) (tc : SubToolCall) :
    (execSubCall registry invoke tc).args = tc.args := by
  unfold execSubCall
  split
  · split <;> rfl
  · rfl

/-- Claim C10: in the financial_search tool, every sub-tool call whose name
is unregistered or whose invocation throws becomes an entry of the _errors
list of the combined result, and such failures never prevent a successful
data of a successful sibling call from appearing in the combined result under its
tool-name (or tool-name_ticker) key; the combination function is total, so
individual sub-tool failures never make the tool itself throw. -/
theorem claim_C10 (registry : List String) (invoke : SubToolCall → SubToolOutcome)
    (calls : List SubToolCall) (tc : SubToolCall) (hmem : tc ∈ calls) :
    ((tc.name ∉ registry ∨ ∃ m, invoke tc = SubToolOutcome.throws m) →
      ∃ m, SubError.mk tc.name tc.args m ∈
        (financialSearchCombine registry invoke calls).errorEntries) ∧
    (∀ d urls, tc.name ∈ registry → invoke tc = SubToolOutcome.ok d urls →
      callKey tc ∈ (financialSearchCombine registry invoke calls).data.map Prod.fst) := by
  have hne : calls ≠ [] := by
    intro h
    subst h
    simp at hmem
  unfold financialSearchCombine
  rw [if_neg hne]
  dsimp only
  constructor
  · intro h
    have hr_err : ∃ m, (execSubCall registry invoke tc).error = some m := by
      rcases h with h | ⟨m, h⟩
      · unfold execSubCall
        rw [if_neg h]
        exact ⟨_, rfl⟩
      · unfold execSubCall
        by_cases hreg : tc.name ∈ registry
        · rw [if_pos hreg, h]
          exact ⟨m, rfl⟩
        · rw [if_neg hreg]
          exact ⟨_, rfl⟩
    obtain ⟨m, hm⟩ := hr_err
    refine ⟨m, ?_⟩
    refine List.mem_map.mpr ⟨execSubCall registry invoke tc, ?_, ?_⟩
    · refine List.mem_filter.mpr ⟨List.mem_map.mpr ⟨tc, hmem, rfl⟩, ?_⟩
      simp [hm]
    · rw [execSubCall_tool, execSubCall_args, hm]
      rfl
  · intro d urls hreg hok
    have hr : execSubCall registry invoke tc =
        ⟨tc.name, tc.args, tc.ticker, some d, urls, none⟩ := by
      unfold execSubCall
      rw [if_pos hreg, hok]
    have hkey : subKey (execSubCall registry invoke tc) = callKey tc := by
      rw [hr]
      rfl
    have hmemS : execSubCall registry invoke tc ∈
        (calls.map (execSubCall registry invoke)).filter fun r => r.error = none := by
      refine List.mem_filter.mpr ⟨List.mem_map.mpr ⟨tc, hmem, rfl⟩, ?_⟩
      rw [hr]
      rfl
    have := fold_key_mem _ [] (execSubCall registry invoke tc) hmemS
    rw [hkey] at this
    exact this

/-- Witness for claim C10 at a concrete batch holding one succeeding call,
one unregistered call, and one throwing call. -/
theorem claim_C10_witness :
    (∃ m, SubError.mk "b" "argsB" m ∈
      (financialSearchCombine ["a"] invW callsW).errorEntries) ∧
    (∃ m, SubError.mk "c" "argsC" m ∈
      (financialSearchCombine ["a"] invW callsW).errorEntries) ∧
    "a_AAPL" ∈ (financialSearchCombine ["a"] invW callsW).data.map Prod.fst :=
  ⟨(claim_C10 ["a"] invW callsW ⟨"b", "argsB", none⟩ (by decide)).1
      (Or.inl (by decide)),
   (claim_C10 ["a"] invW callsW ⟨"c", "argsC", none⟩ (by decide)).1
      (Or.inr ⟨"bad request", rfl⟩),
   (claim_C10 ["a"] invW callsW ⟨"a", "argsA", some "AAPL"⟩ (by decide)).2
      "dataA" ["urlA"] (by decide) rfl⟩
